import Mathlib

/-!
# Verification of the sunrise-sunset schedule generator

A shallow embedding of `src/sunrise-sunset.py`: a script that loops over a
closed date range, obtains the day's discrete solar events (sunrise, sunset)
from an external astronomy service, emits a gated "Morning landscaping
lights" event and an unconditional "Evening landscaping lights" event per
day, and finally writes the accumulated calendar to a file when at least one
event was produced.

Modelling choices:
* Days are `Nat` indices (days since an epoch); the instant of local
  midnight of day `d` is `one_day * d` in seconds.
* Instants are `Int` seconds; `datetime.timedelta` comparisons become
  integer comparisons.
* The external astronomy service (`almanac.find_discrete`) is an abstract
  function `solar : Nat → List Int`, giving the ordered discrete solar
  event instants of the window `[d, d+1)`.
* `times[0]` / `times[1]` indexing is modelled with `List.get?`, so a
  degenerate day (fewer than two discrete events) makes the run fail with
  `none`, matching Python's fatal `IndexError`.
-/

namespace SunriseSunset

/-- `fifteen_minutes = datetime.timedelta(minutes=15)`, in seconds. -/
def fifteen_minutes : Int := 15 * 60

/-- `one_day = datetime.timedelta(days=1)`, in seconds. -/
def one_day : Int := 24 * 3600

/-- `am_on_time = datetime.time(hour=6, minute=30)`: seconds after local midnight. -/
def am_on_time : Int := 6 * 3600 + 30 * 60

/-- `pm_off_time = datetime.time(hour=23, minute=15)`: seconds after local midnight. -/
def pm_off_time : Int := 23 * 3600 + 15 * 60

/-- The constant named `longitude` in the script (it actually holds the
Louisville latitude value 38.251505). -/
def longitude : ℚ := 38251505 / 1000000

/-- The constant named `latitude` in the script (it actually holds the
Louisville longitude value 85.758796). -/
def latitude : ℚ := 85758796 / 1000000

/-- A calendar event, as built by the script: a name, a begin instant and an
end instant (`ics.Event` fields `name`, `begin`, `end`). -/
structure Event where
  name : String
  begin : Int
  «end» : Int
deriving Repr, DecidableEq

/-- The `start` datetime built each iteration: date of day `d` at
`am_on_time`, in the sunrise's timezone — i.e. local midnight of day `d`
plus `am_on_time` seconds. -/
def morningStart (d : Nat) : Int := one_day * d + am_on_time

/-- The `stop` datetime built each iteration: date of day `d` at
`pm_off_time`, in the sunrise's timezone. -/
def eveningStop (d : Nat) : Int := one_day * d + pm_off_time

/-- The morning event built at lines 132-135: begin is the fixed morning
on-time on day `d`, end is the day's sunrise. -/
def morningEvent (d : Nat) (sunrise : Int) : Event :=
  { name := "Morning landscaping lights"
    begin := morningStart d
    «end» := sunrise }

/-- The evening event built at lines 148-151: begin is the day's sunset,
end is the fixed evening off-time on day `d`. -/
def eveningEvent (d : Nat) (sunset : Int) : Event :=
  { name := "Evening landscaping lights"
    begin := sunset
    «end» := eveningStop d }

/-- The events the loop body appends for day `d`, given the day's sunrise
and sunset: the morning event only when `sunrise - start >= fifteen_minutes`
(line 131), then the evening event unconditionally. -/
def dayEvents (d : Nat) (sunrise sunset : Int) : List Event :=
  (if sunrise - morningStart d ≥ fifteen_minutes then [morningEvent d sunrise] else [])
    ++ [eveningEvent d sunset]

/-- One iteration of the loop body for day `d`, given the day's discrete
solar event list `times` from the astronomy service: `sunrise = times[0]`,
`sunset = times[1]` (lines 112-115); an out-of-range index is a fatal
`IndexError`, modelled as `none`. -/
def processDay (times : List Int) (d : Nat) : Option (List Event) := do
  let sunrise ← times.get? 0
  let sunset ← times.get? 1
  pure (dayEvents d sunrise sunset)

/-- The `while d <= stop_date` loop (lines 109-157): starting at day `d`,
process each day and advance by one day until `d > stop`, accumulating the
events in order of insertion.  A failing iteration aborts the run. -/
def runFrom (solar : Nat → List Int) (d stop : Nat) : Option (List Event) :=
  if d ≤ stop then do
    let evs ← processDay (solar d) d
    let rest ← runFrom solar (d + 1) stop
    pure (evs ++ rest)
  else
    pure []
termination_by stop + 1 - d
decreasing_by omega

/-- The sequence of values the loop variable `d` takes: starts at `d`,
advances by one each iteration, terminates as soon as `d > stop`. -/
def loopDays (d stop : Nat) : List Nat :=
  if d ≤ stop then d :: loopDays (d + 1) stop
  else []
termination_by stop + 1 - d
decreasing_by omega

/-- The day's sunrise as the run reads it: first discrete solar event. -/
def sunriseOf (solar : Nat → List Int) (x : Nat) : Int := (solar x).getD 0 0

/-- The day's sunset as the run reads it: second discrete solar event. -/
def sunsetOf (solar : Nat → List Int) (x : Nat) : Int := (solar x).getD 1 0

/-- The event list a successful run produces, day blocks in loop order. -/
def pureRun (solar : Nat → List Int) (d stop : Nat) : List Event :=
  ((loopDays d stop).map (fun x => dayEvents x (sunriseOf solar x) (sunsetOf solar x))).flatten

/-- Recognizes the morning event of day `d`: the right name, and begin
equal to the fixed morning on-time of day `d`. -/
def isMorningOf (d : Nat) (e : Event) : Bool :=
  e.name == "Morning landscaping lights" && e.begin == morningStart d

/-- Recognizes the evening event of day `d`: the right name, and end
equal to the fixed evening off-time of day `d`. -/
def isEveningOf (d : Nat) (e : Event) : Bool :=
  e.name == "Evening landscaping lights" && e.«end» == eveningStop d

/-- Insertion rank of an event: the morning event of day `d` has rank
`2*d`, the evening event of day `d` has rank `2*d + 1`.  The loop appends
events in strictly increasing rank order. -/
def rank (e : Event) : Int :=
  if e.name = "Morning landscaping lights" then 2 * ((e.begin - am_on_time) / one_day)
  else 2 * ((e.«end» - pm_off_time) / one_day) + 1

/-- Modelled from the spec: the external calendar library's serialization
(`my_file.writelines(calendar)`, line 166) — the whole insertion-ordered
collection is serialized in one pass, one chunk per event in order. -/
def eventLine (e : Event) : String :=
  e.name ++ " " ++ toString e.begin ++ " " ++ toString e.«end» ++ "\n"

/-- Modelled from the spec: serialization of the whole event collection in
a single pass, in insertion order. -/
def serialize (evs : List Event) : String :=
  String.join (evs.map eventLine)

/-- A file-system operation on the fixed output path. -/
inductive FsOp where
  | unlink : FsOp
  | write : String → FsOp
deriving Repr, DecidableEq

/-- The file-system operations the output step (lines 161-166) performs on
the fixed output path, given the final event counter `num_events`, the
accumulated collection `cal`, and the pre-existing file state `fs` (`none`
= no file, `some c` = a file with content `c`): if at least one event was
produced, unlink the file when it exists, then write the serialized
collection; otherwise do nothing. -/
def outputOps (num_events : Nat) (cal : List Event) (fs : Option String) : List FsOp :=
  if num_events > 0 then
    (if fs.isSome then [FsOp.unlink] else []) ++ [FsOp.write (serialize cal)]
  else []

/-- Effect of one file-system operation on the output path's state. -/
def applyOp : Option String → FsOp → Option String
  | _, FsOp.unlink => none
  | _, FsOp.write c => some c

/-- The output path's file state after the output step. -/
def outputStep (num_events : Nat) (cal : List Event) (fs : Option String) : Option String :=
  (outputOps num_events cal fs).foldl applyOp fs

/-- Modelled from the spec: the external astronomy service's observer
location constructor (`api.Topos`, lines 96-97), whose first positional
argument is the latitude description and whose second is the longitude
description.  Each description is modelled as the numeric degree value
paired with its compass suffix. -/
structure Topos where
  latitude_arg : ℚ × String
  longitude_arg : ℚ × String
deriving DecidableEq

/-- `here = api.Topos('{l} N'.format(l=longitude), '{l} W'.format(l=latitude))`:
the first positional argument is built from the variable named `longitude`
with suffix "N", the second from the variable named `latitude` with
suffix "W". -/
def here : Topos :=
  { latitude_arg := (longitude, "N")
    longitude_arg := (latitude, "W") }

/-! ## Structural lemmas about the loop -/

lemma loopDays_unfold (d stop : Nat) :
    loopDays d stop = if d ≤ stop then d :: loopDays (d + 1) stop else [] := by
  rw [loopDays]

lemma loopDays_eq_range_aux (stop : Nat) :
    ∀ n d, stop + 1 - d = n → loopDays d stop = (List.range n).map (fun i => d + i) := by
  intro n
  induction n with
  | zero =>
    intro d h
    rw [loopDays_unfold]
    have : ¬ d ≤ stop := by omega
    simp [this]
  | succ n ih =>
    intro d h
    have hd : d ≤ stop := by omega
    rw [loopDays_unfold, if_pos hd, ih (d + 1) (by omega), List.range_succ_eq_map]
    simp only [List.map_cons, List.map_map, Nat.add_zero, List.cons.injEq, true_and]
    apply List.map_congr_left
    intro i _
    simp [Function.comp]
    omega

lemma loopDays_eq_range (d stop : Nat) :
    loopDays d stop = (List.range (stop + 1 - d)).map (fun i => d + i) :=
  loopDays_eq_range_aux stop _ d rfl

lemma mem_loopDays {x d stop : Nat} : x ∈ loopDays d stop ↔ d ≤ x ∧ x ≤ stop := by
  rw [loopDays_eq_range]
  simp only [List.mem_map, List.mem_range]
  constructor
  · rintro ⟨i, hi, rfl⟩
    omega
  · rintro ⟨h1, h2⟩
    exact ⟨x - d, by omega, by omega⟩

lemma loopDays_nodup (d stop : Nat) : (loopDays d stop).Nodup := by
  rw [loopDays_eq_range]
  exact (List.nodup_range _).map (fun a b => by omega)

lemma loopDays_length (d stop : Nat) : (loopDays d stop).length = stop + 1 - d := by
  rw [loopDays_eq_range]
  simp

lemma loopDays_pairwise (d stop : Nat) : (loopDays d stop).Pairwise (· < ·) := by
  rw [loopDays_eq_range]
  refine List.Pairwise.map _ (fun a b hab => ?_) (List.pairwise_lt_range _)
  omega

lemma runFrom_unfold (solar : Nat → List Int) (d stop : Nat) :
    runFrom solar d stop =
      if d ≤ stop then do
        let evs ← processDay (solar d) d
        let rest ← runFrom solar (d + 1) stop
        pure (evs ++ rest)
      else pure [] := by
  rw [runFrom]

lemma processDay_of_two {a b : Int} {rest : List Int} (d : Nat) :
    processDay (a :: b :: rest) d = some (dayEvents d a b) := by
  simp [processDay]

lemma processDay_isSome_len {times : List Int} {d : Nat}
    (h : (processDay times d).isSome) : 2 ≤ times.length := by
  rcases times with _ | ⟨a, _ | ⟨b, rest⟩⟩
  · simp [processDay] at h
  · simp [processDay] at h
  · simp only [List.length_cons]
    omega

lemma runFrom_isSome_len_aux (solar : Nat → List Int) (stop : Nat) :
    ∀ n d, stop + 1 - d = n → (runFrom solar d stop).isSome →
      ∀ x, d ≤ x → x ≤ stop → 2 ≤ (solar x).length := by
  intro n
  induction n with
  | zero =>
    intro d h _ x hx1 hx2
    omega
  | succ n ih =>
    intro d h hsome x hx1 hx2
    have hd : d ≤ stop := by omega
    rw [runFrom_unfold, if_pos hd] at hsome
    rcases hp : processDay (solar d) d with _ | evs
    · rw [hp] at hsome
      simp at hsome
    · rw [hp] at hsome
      rcases hr : runFrom solar (d + 1) stop with _ | rest
      · rw [hr] at hsome
        simp at hsome
      · rcases Nat.eq_or_lt_of_le hx1 with rfl | hlt
        · exact processDay_isSome_len (Option.isSome_iff_exists.mpr ⟨evs, hp⟩)
        · exact ih (d + 1) (by omega) (Option.isSome_iff_exists.mpr ⟨rest, hr⟩) x (by omega) hx2

lemma pureRun_of_gt {solar : Nat → List Int} {d stop : Nat} (hd : ¬ d ≤ stop) :
    pureRun solar d stop = [] := by
  rw [pureRun, loopDays_unfold, if_neg hd]
  rfl

lemma pureRun_of_le {solar : Nat → List Int} {d stop : Nat} (hd : d ≤ stop) :
    pureRun solar d stop =
      dayEvents d (sunriseOf solar d) (sunsetOf solar d) ++ pureRun solar (d + 1) stop := by
  rw [pureRun, loopDays_unfold, if_pos hd]
  rfl

lemma runFrom_eq_pure_aux (solar : Nat → List Int) (stop : Nat) :
    ∀ n d, stop + 1 - d = n →
      (∀ x, d ≤ x → x ≤ stop → 2 ≤ (solar x).length) →
      runFrom solar d stop = some (pureRun solar d stop) := by
  intro n
  induction n with
  | zero =>
    intro d h _
    have hd : ¬ d ≤ stop := by omega
    rw [runFrom_unfold, if_neg hd, pureRun_of_gt hd]
    rfl
  | succ n ih =>
    intro d h hlen
    have hd : d ≤ stop := by omega
    have h2 : 2 ≤ (solar d).length := hlen d (le_refl d) hd
    rcases hs : solar d with _ | ⟨a, _ | ⟨b, rest⟩⟩
    · rw [hs] at h2; simp at h2
    · rw [hs] at h2; simp at h2
    · have hrec := ih (d + 1) (by omega) (fun x hx1 hx2 => hlen x (by omega) hx2)
      have hsr : sunriseOf solar d = a := by simp [sunriseOf, hs]
      have hss : sunsetOf solar d = b := by simp [sunsetOf, hs]
      rw [runFrom_unfold, if_pos hd, hs, processDay_of_two, hrec, pureRun_of_le hd, hsr, hss]
      rfl

/-- A successful run delivers exactly the in-order concatenation of the
per-day event blocks, one block per day of the inclusive range. -/
lemma runFrom_some_eq {solar : Nat → List Int} {start stop : Nat} {evs : List Event}
    (hrun : runFrom solar start stop = some evs) : evs = pureRun solar start stop := by
  have hlen : ∀ x, start ≤ x → x ≤ stop → 2 ≤ (solar x).length :=
    runFrom_isSome_len_aux solar stop _ start rfl (by rw [hrun]; rfl)
  have := runFrom_eq_pure_aux solar stop _ start rfl hlen
  rw [hrun] at this
  exact (Option.some.injEq _ _).mp this

lemma runFrom_some_len {solar : Nat → List Int} {start stop : Nat} {evs : List Event}
    (hrun : runFrom solar start stop = some evs) :
    ∀ x, start ≤ x → x ≤ stop → 2 ≤ (solar x).length :=
  runFrom_isSome_len_aux solar stop _ start rfl (by rw [hrun]; rfl)

lemma sunriseOf_eq {solar : Nat → List Int} {d : Nat} {sr : Int}
    (h : (solar d).get? 0 = some sr) : sunriseOf solar d = sr := by
  rw [sunriseOf, List.getD_eq_getD_get?, h]
  rfl

lemma sunsetOf_eq {solar : Nat → List Int} {d : Nat} {ss : Int}
    (h : (solar d).get? 1 = some ss) : sunsetOf solar d = ss := by
  rw [sunsetOf, List.getD_eq_getD_get?, h]
  rfl

/-! ## Identifying a day's events inside the accumulated collection -/

lemma morningStart_inj {x d : Nat} (h : morningStart x = morningStart d) : x = d := by
  simp only [morningStart, one_day, am_on_time] at h
  omega

lemma eveningStop_inj {x d : Nat} (h : eveningStop x = eveningStop d) : x = d := by
  simp only [eveningStop, one_day, pm_off_time] at h
  omega

lemma filter_morning_self (d : Nat) (sr ss : Int) :
    (dayEvents d sr ss).filter (isMorningOf d) =
      if sr - morningStart d ≥ fifteen_minutes then [morningEvent d sr] else [] := by
  by_cases hgap : sr - morningStart d ≥ fifteen_minutes <;>
    simp [dayEvents, hgap, isMorningOf, morningEvent, eveningEvent]

lemma filter_morning_other {x d : Nat} (hx : x ≠ d) (sr ss : Int) :
    (dayEvents x sr ss).filter (isMorningOf d) = [] := by
  have hne : morningStart x ≠ morningStart d := fun h => hx (morningStart_inj h)
  by_cases hgap : sr - morningStart x ≥ fifteen_minutes <;>
    simp [dayEvents, hgap, isMorningOf, morningEvent, eveningEvent, hne]

lemma filter_evening_self (d : Nat) (sr ss : Int) :
    (dayEvents d sr ss).filter (isEveningOf d) = [eveningEvent d ss] := by
  by_cases hgap : sr - morningStart d ≥ fifteen_minutes <;>
    simp [dayEvents, hgap, isEveningOf, morningEvent, eveningEvent]

lemma filter_evening_other {x d : Nat} (hx : x ≠ d) (sr ss : Int) :
    (dayEvents x sr ss).filter (isEveningOf d) = [] := by
  have hne : eveningStop x ≠ eveningStop d := fun h => hx (eveningStop_inj h)
  by_cases hgap : sr - morningStart x ≥ fifteen_minutes <;>
    simp [dayEvents, hgap, isEveningOf, morningEvent, eveningEvent, hne]

lemma flatten_filter_nil {t : List Nat} {f : Nat → List Event} {p : Event → Bool}
    (h : ∀ x ∈ t, (f x).filter p = []) : ((t.map f).flatten).filter p = [] := by
  induction t with
  | nil => rfl
  | cons a t ih =>
    simp only [List.map_cons, List.flatten_cons, List.filter_append,
      h a (List.mem_cons_self a t), List.nil_append]
    exact ih (fun x hx => h x (List.mem_cons_of_mem _ hx))

lemma flatten_filter_single {l : List Nat} {f : Nat → List Event} {p : Event → Bool} {d : Nat}
    (hmem : d ∈ l) (hnodup : l.Nodup)
    (hother : ∀ x ∈ l, x ≠ d → (f x).filter p = []) :
    ((l.map f).flatten).filter p = (f d).filter p := by
  induction l with
  | nil => simp at hmem
  | cons a t ih =>
    rcases List.nodup_cons.mp hnodup with ⟨hna, hnt⟩
    by_cases ha : a = d
    · subst ha
      have ht : ∀ x ∈ t, (f x).filter p = [] :=
        fun x hx => hother x (List.mem_cons_of_mem _ hx) (fun hxa => hna (hxa ▸ hx))
      simp only [List.map_cons, List.flatten_cons, List.filter_append,
        flatten_filter_nil ht, List.append_nil]
    · have hmem' : d ∈ t := by
        rcases List.mem_cons.mp hmem with h1 | h1
        · exact absurd h1.symm ha
        · exact h1
      have hrec := ih hmem' hnt (fun x hx hxd => hother x (List.mem_cons_of_mem _ hx) hxd)
      simp only [List.map_cons, List.flatten_cons, List.filter_append,
        hother a (List.mem_cons_self _ _) ha, List.nil_append, hrec]

/-! ## The claims -/

/-- C1: for every day `d` of the processed range, when the day's sunrise is
at least fifteen minutes after the fixed morning on-time of day `d`, the
run's collection contains exactly one "Morning landscaping lights" event
for day `d`, and it has begin = morning on-time of `d` and end = sunrise. -/
theorem C1_morning_event_when_gap_at_least_threshold
    (solar : Nat → List Int) (start stop d : Nat) (evs : List Event) (sr : Int)
    (hrun : runFrom solar start stop = some evs)
    (h1 : start ≤ d) (h2 : d ≤ stop)
    (hsr : (solar d).get? 0 = some sr)
    (hgap : sr - morningStart d ≥ fifteen_minutes) :
    evs.filter (isMorningOf d) = [morningEvent d sr] := by
  have hother : ∀ x ∈ loopDays start stop, x ≠ d →
      (dayEvents x (sunriseOf solar x) (sunsetOf solar x)).filter (isMorningOf d) = [] :=
    fun x _ hxd => filter_morning_other hxd _ _
  rw [runFrom_some_eq hrun, pureRun,
    flatten_filter_single (mem_loopDays.mpr ⟨h1, h2⟩) (loopDays_nodup _ _) hother,
    sunriseOf_eq hsr, filter_morning_self, if_pos hgap]

/-- C2: for every day `d` of the processed range, the run's collection
contains exactly one "Evening landscaping lights" event for day `d`, with
begin = the day's sunset and end = the fixed evening off-time of day `d`,
with no minimum-gap condition. -/
theorem C2_evening_event_unconditional
    (solar : Nat → List Int) (start stop d : Nat) (evs : List Event) (ss : Int)
    (hrun : runFrom solar start stop = some evs)
    (h1 : start ≤ d) (h2 : d ≤ stop)
    (hss : (solar d).get? 1 = some ss) :
    evs.filter (isEveningOf d) = [eveningEvent d ss] := by
  have hother : ∀ x ∈ loopDays start stop, x ≠ d →
      (dayEvents x (sunriseOf solar x) (sunsetOf solar x)).filter (isEveningOf d) = [] :=
    fun x _ hxd => filter_evening_other hxd _ _
  rw [runFrom_some_eq hrun, pureRun,
    flatten_filter_single (mem_loopDays.mpr ⟨h1, h2⟩) (loopDays_nodup _ _) hother,
    sunsetOf_eq hss, filter_evening_self]

/-- C3: for every day `d` of the processed range, when the day's sunrise is
strictly less than fifteen minutes after the fixed morning on-time of day
`d` (including sunrise before the on-time), the run's collection contains
no "Morning landscaping lights" event for day `d`. -/
theorem C3_no_morning_event_when_gap_below_threshold
    (solar : Nat → List Int) (start stop d : Nat) (evs : List Event) (sr : Int)
    (hrun : runFrom solar start stop = some evs)
    (h1 : start ≤ d) (h2 : d ≤ stop)
    (hsr : (solar d).get? 0 = some sr)
    (hgap : sr - morningStart d < fifteen_minutes) :
    evs.filter (isMorningOf d) = [] := by
  have hall : ∀ x ∈ loopDays start stop,
      (dayEvents x (sunriseOf solar x) (sunsetOf solar x)).filter (isMorningOf d) = [] := by
    intro x _
    by_cases hxd : x = d
    · subst hxd
      rw [sunriseOf_eq hsr, filter_morning_self, if_neg (not_le.mpr hgap)]
    · exact filter_morning_other hxd _ _
  rw [runFrom_some_eq hrun, pureRun, flatten_filter_nil hall]

/-- C4: for `start ≤ stop` the loop runs exactly `stop - start + 1`
iterations: the loop variable takes the values `start, start+1, ...` one
day apart, `stop` itself is processed, and from any day beyond `stop` the
loop body never runs. -/
theorem C4_loop_inclusive_day_count (start stop : Nat) (h : start ≤ stop) :
    (loopDays start stop).length = stop - start + 1 ∧
    loopDays start stop = (List.range (stop - start + 1)).map (fun i => start + i) ∧
    stop ∈ loopDays start stop ∧
    (∀ d, stop < d → loopDays d stop = []) := by
  have hc : stop + 1 - start = stop - start + 1 := by omega
  refine ⟨?_, ?_, ?_, ?_⟩
  · rw [loopDays_length]
    omega
  · rw [loopDays_eq_range, hc]
  · exact mem_loopDays.mpr ⟨h, le_refl _⟩
  · intro d hd
    rw [loopDays_unfold, if_neg (by omega)]

/-! ## Insertion order -/

lemma rank_morning (d : Nat) (sr : Int) : rank (morningEvent d sr) = 2 * d := by
  have h0 : (one_day : Int) ≠ 0 := by norm_num [one_day]
  simp [rank, morningEvent, morningStart, Int.mul_ediv_cancel_left _ h0]

lemma rank_evening (d : Nat) (ss : Int) : rank (eveningEvent d ss) = 2 * d + 1 := by
  have h0 : (one_day : Int) ≠ 0 := by norm_num [one_day]
  have hne : ("Evening landscaping lights" : String) ≠ "Morning landscaping lights" := by
    decide
  simp [rank, eveningEvent, eveningStop, hne, Int.mul_ediv_cancel_left _ h0]

lemma rank_mem_dayEvents {e : Event} {x : Nat} {sr ss : Int}
    (he : e ∈ dayEvents x sr ss) : rank e = 2 * x ∨ rank e = 2 * x + 1 := by
  by_cases hgap : sr - morningStart x ≥ fifteen_minutes
  · simp only [dayEvents, if_pos hgap, List.cons_append, List.nil_append,
      List.mem_cons, List.not_mem_nil, or_false] at he
    rcases he with rfl | rfl
    · exact Or.inl (rank_morning x sr)
    · exact Or.inr (rank_evening x ss)
  · simp only [dayEvents, if_neg hgap, List.nil_append, List.mem_singleton] at he
    subst he
    exact Or.inr (rank_evening x ss)

lemma dayEvents_pairwise_rank (x : Nat) (sr ss : Int) :
    (dayEvents x sr ss).Pairwise (fun a b => rank a < rank b) := by
  by_cases hgap : sr - morningStart x ≥ fifteen_minutes
  · simp only [dayEvents, if_pos hgap, List.cons_append, List.nil_append]
    refine List.pairwise_cons.mpr ⟨?_, List.pairwise_singleton _ _⟩
    intro b hb
    rw [List.mem_singleton] at hb
    subst hb
    rw [rank_morning, rank_evening]
    omega
  · simp only [dayEvents, if_neg hgap, List.nil_append]
    exact List.pairwise_singleton _ _

/-- C7: the accumulated collection is in insertion order: ranks (morning
of day `d` = `2d`, evening of day `d` = `2d + 1`) are strictly increasing
along the list — morning before evening within a day, earlier days before
later days. -/
theorem C7_collection_in_insertion_order
    (solar : Nat → List Int) (start stop : Nat) (evs : List Event)
    (hrun : runFrom solar start stop = some evs) :
    evs.Pairwise (fun a b => rank a < rank b) := by
  rw [runFrom_some_eq hrun, pureRun, List.pairwise_flatten]
  constructor
  · intro l hl
    rcases List.mem_map.mp hl with ⟨x, _, rfl⟩
    exact dayEvents_pairwise_rank x _ _
  · refine List.Pairwise.map _ ?_ (loopDays_pairwise start stop)
    intro a b hab x hx y hy
    rcases rank_mem_dayEvents hx with h1 | h1 <;>
      rcases rank_mem_dayEvents hy with h2 | h2 <;>
        rw [h1, h2] <;> omega

/-- C8: each day the run takes `times[0]` as sunrise and `times[1]` as
sunset; on a degenerate day with fewer than two discrete solar events the
iteration fails with an indexing error (`none`), and with at least two
events both index accesses succeed. -/
theorem C8_indexing_of_discrete_events (times : List Int) (d : Nat) :
    (times.length < 2 → processDay times d = none) ∧
    (2 ≤ times.length →
      ∃ sr ss, times.get? 0 = some sr ∧ times.get? 1 = some ss ∧
        processDay times d = some (dayEvents d sr ss)) := by
  rcases times with _ | ⟨a, _ | ⟨b, rest⟩⟩
  · exact ⟨fun _ => rfl, fun h => by simp at h⟩
  · exact ⟨fun _ => rfl, fun h => by simp at h⟩
  · refine ⟨fun h => absurd h (by simp only [List.length_cons]; omega),
      fun _ => ⟨a, b, rfl, rfl, processDay_of_two d⟩⟩

/-- C5: when the event counter is zero at the end of the loop, the output
step performs no file-system operation at all: nothing is written and a
pre-existing file at the output path is left exactly as it was. -/
theorem C5_zero_events_no_file_touched (cal : List Event) (fs : Option String) :
    outputOps 0 cal fs = [] ∧ outputStep 0 cal fs = fs :=
  ⟨rfl, rfl⟩

/-- C6: when at least one event was produced and a file already exists at
the output path, the output step first unlinks it and then writes a single
file holding the serialization of the entire accumulated collection — the
old content is replaced, not appended to. -/
theorem C6_existing_file_replaced (cal : List Event) (old : String)
    (h : 0 < cal.length) :
    outputOps cal.length cal (some old) =
      [FsOp.unlink, FsOp.write (serialize cal)] ∧
    outputStep cal.length cal (some old) = some (serialize cal) := by
  constructor
  · simp [outputOps, h]
  · simp [outputStep, outputOps, h, applyOp]

/-- C9: the variable named `longitude` (holding the latitude value
38.251505) is passed to the latitude slot of the observer-location
constructor with suffix "N", and the variable named `latitude` (holding
the longitude value 85.758796) to the longitude slot with suffix "W"; the
two transpositions cancel, so the location given to the astronomy service
is 38.251505 N, 85.758796 W. -/
theorem C9_transposed_names_cancel :
    here.latitude_arg = ((38251505 : ℚ) / 1000000, "N") ∧
    here.longitude_arg = ((85758796 : ℚ) / 1000000, "W") ∧
    here.latitude_arg.1 = longitude ∧
    here.longitude_arg.1 = latitude :=
  ⟨rfl, rfl, rfl, rfl⟩

lemma dayEvents_length_pos (d : Nat) (sr ss : Int) : 1 ≤ (dayEvents d sr ss).length := by
  by_cases hgap : sr - morningStart d ≥ fifteen_minutes <;> simp [dayEvents, hgap]

lemma length_le_flatten_map (l : List Nat) (f : Nat → List Event)
    (h : ∀ x, 1 ≤ (f x).length) : l.length ≤ ((l.map f).flatten).length := by
  induction l with
  | nil => simp
  | cons a t ih =>
    simp only [List.map_cons, List.flatten_cons, List.length_append, List.length_cons]
    have := h a
    omega

/-- C10: the evening event is unconditional, so every completed iteration
contributes at least one event: a successful run over `start ≤ stop`
yields at least `stop - start + 1` events (hence at least one), and a
successful run with zero events is only possible when `start > stop`. -/
theorem C10_counter_at_least_day_count
    (solar : Nat → List Int) (start stop : Nat) (evs : List Event)
    (hrun : runFrom solar start stop = some evs) :
    (start ≤ stop → stop - start + 1 ≤ evs.length ∧ 1 ≤ evs.length) ∧
    (evs.length = 0 → stop < start) := by
  have hev := runFrom_some_eq hrun
  subst hev
  have hge := length_le_flatten_map (loopDays start stop)
    (fun x => dayEvents x (sunriseOf solar x) (sunsetOf solar x))
    (fun x => dayEvents_length_pos x (sunriseOf solar x) (sunsetOf solar x))
  rw [loopDays_length] at hge
  rw [pureRun]
  constructor
  · intro hss
    refine ⟨by omega, by omega⟩
  · intro h0
    rw [h0] at hge
    omega

/-! ## Concrete runs, used as witnesses -/

lemma runFrom_ex1 :
    runFrom (fun _ => [24300, 70000]) 0 0 =
      some [morningEvent 0 24300, eveningEvent 0 70000] := by
  rw [runFrom_unfold, runFrom_unfold]
  decide

lemma runFrom_ex2 :
    runFrom (fun _ => [23500, 70000]) 0 0 = some [eveningEvent 0 70000] := by
  rw [runFrom_unfold, runFrom_unfold]
  decide

theorem C1_witness :
    ([morningEvent 0 24300, eveningEvent 0 70000].filter (isMorningOf 0)) =
      [morningEvent 0 24300] :=
  C1_morning_event_when_gap_at_least_threshold (fun _ => [24300, 70000]) 0 0 0
    [morningEvent 0 24300, eveningEvent 0 70000] 24300 runFrom_ex1
    (le_refl 0) (le_refl 0) rfl (by decide)

theorem C2_witness :
    ([morningEvent 0 24300, eveningEvent 0 70000].filter (isEveningOf 0)) =
      [eveningEvent 0 70000] :=
  C2_evening_event_unconditional (fun _ => [24300, 70000]) 0 0 0
    [morningEvent 0 24300, eveningEvent 0 70000] 70000 runFrom_ex1
    (le_refl 0) (le_refl 0) rfl

theorem C3_witness :
    ([eveningEvent 0 70000].filter (isMorningOf 0)) = [] :=
  C3_no_morning_event_when_gap_below_threshold (fun _ => [23500, 70000]) 0 0 0
    [eveningEvent 0 70000] 23500 runFrom_ex2
    (le_refl 0) (le_refl 0) rfl (by decide)

theorem C4_witness :
    (loopDays 0 1).length = 1 - 0 + 1 ∧
    loopDays 0 1 = (List.range (1 - 0 + 1)).map (fun i => 0 + i) ∧
    1 ∈ loopDays 0 1 ∧
    (∀ d, 1 < d → loopDays d 1 = []) :=
  C4_loop_inclusive_day_count 0 1 (by omega)

theorem C6_witness :
    outputOps [eveningEvent 0 70000].length [eveningEvent 0 70000] (some "old") =
      [FsOp.unlink, FsOp.write (serialize [eveningEvent 0 70000])] ∧
    outputStep [eveningEvent 0 70000].length [eveningEvent 0 70000] (some "old") =
      some (serialize [eveningEvent 0 70000]) :=
  C6_existing_file_replaced [eveningEvent 0 70000] "old" (by decide)

theorem C7_witness :
    ([morningEvent 0 24300, eveningEvent 0 70000] : List Event).Pairwise
      (fun a b => rank a < rank b) :=
  C7_collection_in_insertion_order (fun _ => [24300, 70000]) 0 0
    [morningEvent 0 24300, eveningEvent 0 70000] runFrom_ex1

theorem C8_witness :
    processDay [(24300 : Int)] 0 = none ∧
    (∃ sr ss, ([(24300 : Int), 70000] : List Int).get? 0 = some sr ∧
      ([(24300 : Int), 70000] : List Int).get? 1 = some ss ∧
      processDay [(24300 : Int), 70000] 0 = some (dayEvents 0 sr ss)) :=
  ⟨(C8_indexing_of_discrete_events [(24300 : Int)] 0).1 (by decide),
   (C8_indexing_of_discrete_events [(24300 : Int), 70000] 0).2 (by decide)⟩

theorem C10_witness :
    0 - 0 + 1 ≤ ([morningEvent 0 24300, eveningEvent 0 70000] : List Event).length ∧
    1 ≤ ([morningEvent 0 24300, eveningEvent 0 70000] : List Event).length :=
  (C10_counter_at_least_day_count (fun _ => [24300, 70000]) 0 0
    [morningEvent 0 24300, eveningEvent 0 70000] runFrom_ex1).1 (le_refl 0)

end SunriseSunset
